import Mathlib

/-!
Verification of the SkillAlign recommendation engine.

The definitions below are a shallow embedding of the Python sources:

* `app/api/repos/recommendations.py`   — `RecommendationsRepo`
* `app/api/services/recommendations.py` — `RecommendationsService`
* `app/core/ml.py`                     — `MLEngine.search`
* `app/api/services/recommendation_service.py` — alternate function path

Python floats are modelled as rationals, Python sets of strings as
`Finset String`, Python dicts by last-wins association-list lookups, and
the Cypher query of `_fetch_occupations_with_skills` as an executable
query over an explicit graph-store value.  Python's `list.sort`
(a stable sort) is modelled by a stable insertion sort `stSort`.
-/

/-- Stable insert: `x` is placed immediately before the first element `y`
with `prec x y` (strictly precedes); hence equal/incomparable elements keep
their original relative order, as in Python's stable `list.sort`. -/
def stInsert {α : Type} (prec : α → α → Bool) (x : α) : List α → List α
  | [] => [x]
  | y :: ys => if prec x y then x :: y :: ys else y :: stInsert prec x ys

/-- Stable sort by repeated stable insertion (left to right), the model of
Python's stable `list.sort(key=..., reverse=...)`. -/
def stSort {α : Type} (prec : α → α → Bool) (l : List α) : List α :=
  l.foldl (fun acc x => stInsert prec x acc) []

/-- Strict-precedence test used for an ascending sort by a key. -/
def precAsc {α : Type} {κ : Type} [LinearOrder κ] (key : α → κ) (a b : α) : Bool :=
  decide (key a < key b)

/-- Strict-precedence test used for a descending sort by a key
(`reverse=True` in Python). -/
def precDesc {α : Type} {κ : Type} [LinearOrder κ] (key : α → κ) (a b : α) : Bool :=
  decide (key b < key a)

/-- Python's `x or default` on an optional string: the default is used when
the value is `None` or the empty string (both falsy). -/
def pyOr (v : Option String) (default : String) : String :=
  match v with
  | none => default
  | some s => if s = "" then default else s

/-- Helper for `dedupKeepFirst`: drop elements already seen. -/
def dedupKeepFirstAux {α : Type} [DecidableEq α] (seen : List α) : List α → List α
  | [] => []
  | a :: l =>
    if a ∈ seen then dedupKeepFirstAux seen l
    else a :: dedupKeepFirstAux (a :: seen) l

/-- `COLLECT(DISTINCT ...)` in Cypher: de-duplicate keeping the first
occurrence of each element. -/
def dedupKeepFirst {α : Type} [DecidableEq α] (l : List α) : List α :=
  dedupKeepFirstAux [] l

/-- One `REQUIRES` edge as collected by the Cypher query of
`_fetch_occupations_with_skills`: skill uri and label with the edge's
`relationType` and the skill's `skillType` (both nullable). -/
structure SkillRec where
  uri : String
  label : String
  relation_type : Option String
  skill_type : Option String
deriving DecidableEq

/-- An `Occupation` node with its outgoing edges
(`REQUIRES`, `IN_OCC_GROUP`, `IN_SCHEME`). -/
structure Occupation where
  uri : String
  label : String
  description : Option String
  isco_code : Option String
  requires : List SkillRec
  inOccGroups : List String
  inSchemes : List String
deriving DecidableEq

/-- The `ORDER BY o.preferredLabel` comparison of the fetch query. -/
def occLabelPrec : Occupation → Occupation → Bool :=
  precAsc (fun o => o.label)

/-- An `OccupationGroup` node (its `code` and `preferredLabel` may be null). -/
structure OccupationGroup where
  uri : String
  code : Option String
  label : Option String
deriving DecidableEq

/-- The Neo4j graph store: node tables plus the `broader`/`broaderTransitive`
edges between occupation groups (modelled as one edge list, matching the
`broaderTransitive|broader` union in the query). `skills` and `schemeNodes`
map uris to `preferredLabel`s. -/
structure GraphDB where
  occupations : List Occupation
  groups : List OccupationGroup
  broader : List (String × String)
  skills : List (String × String)
  schemeNodes : List (String × Option String)
deriving DecidableEq

/-- The `OccupationGroup` nodes an occupation is a member of
(`(o)-[:IN_OCC_GROUP]->(g:OccupationGroup)`). -/
def memberGroups (db : GraphDB) (o : Occupation) : List OccupationGroup :=
  o.inOccGroups.filterMap (fun gu => db.groups.find? (fun g => g.uri = gu))

/-- Direct successors of a group uri along `broaderTransitive|broader` edges. -/
def broaderStep (db : GraphDB) (u : String) : List String :=
  (db.broader.filter (fun e => e.1 = u)).map (fun e => e.2)

/-- All uris reachable from `u` in 1 up to `n` hops along broader edges —
the `[:broaderTransitive|broader*1..5]` bounded traversal when `n = 5`. -/
def reachBroader (db : GraphDB) : Nat → String → List String
  | 0, _ => []
  | n + 1, u =>
    let ps := broaderStep db u
    ps ++ ps.flatMap (reachBroader db n)

/-- The group codes the repo derives from the filter uris:
`uri.split('/C')[-1]` for each requested group uri. -/
def groupCodeOfUri (u : String) : String :=
  (u.splitOn "/C").getLastD u

/-- The three-way group-filter disjunction of
`_fetch_occupations_with_skills` (direct membership, membership in a group
with a requested ancestor within 5 broader hops, or membership in a group
whose code starts with a requested group's derived code). -/
def occPassesGroupFilter (db : GraphDB) (ogs : List String) (o : Occupation) : Bool :=
  let codes := ogs.map groupCodeOfUri
  (memberGroups db o).any (fun g =>
    decide (g.uri ∈ ogs)
    || (reachBroader db 5 g.uri).any (fun p =>
          (db.groups.any (fun gn => decide (gn.uri = p))) && decide (p ∈ ogs))
    || (match g.code with
        | none => false
        | some c => codes.any (fun fc => c.startsWith fc)))

/-- The scheme filter: `(o)-[:IN_SCHEME]->(cs:ConceptScheme)` with
`cs.uri IN $schemes`. -/
def occPassesSchemeFilter (db : GraphDB) (schemes : List String) (o : Occupation) : Bool :=
  o.inSchemes.any (fun su =>
    decide (su ∈ schemes) && db.schemeNodes.any (fun cs => decide (cs.1 = su)))

/-- One row of the fetch query after the Python-side cleanup at the end of
`_fetch_occupations_with_skills`. -/
structure OccRecord where
  uri : String
  label : String
  description : Option String
  isco_code : Option String
  required_skills : List SkillRec
  groups : List String
  schemes : List String
deriving DecidableEq

/-- `COALESCE(g.preferredLabel, g.code, g.uri)` for a group node. -/
def groupDisplay (g : OccupationGroup) : String :=
  match g.label with
  | some l => l
  | none => match g.code with
            | some c => c
            | none => g.uri

/-- `COALESCE(cs.preferredLabel, cs.uri)` for a scheme node. -/
def schemeDisplay (db : GraphDB) (su : String) : Option String :=
  (db.schemeNodes.find? (fun cs => cs.1 = su)).map (fun cs =>
    match cs.2 with
    | some l => l
    | none => cs.1)

/-- `RecommendationsRepo._fetch_occupations_with_skills`: candidate
occupations restricted to the FAISS uris, group/scheme filters applied in
the query, rows ordered by `o.preferredLabel`, and the collected
`required_skills`/`groups`/`schemes` lists cleaned up as in the Python code
(null placeholder rows dropped, falsy group/scheme labels dropped).
The `user_skill_uris` parameter is passed by the Python code but unused by
the query. -/
def fetchOccupationsWithSkills (db : GraphDB) (occupation_uris : List String)
    (user_skill_uris : List String) (occupation_groups : List String)
    (schemes : List String) : List OccRecord :=
  let cands := db.occupations.filter (fun o => decide (o.uri ∈ occupation_uris))
  let cands := if occupation_groups.isEmpty then cands
               else cands.filter (occPassesGroupFilter db occupation_groups)
  let cands := if schemes.isEmpty then cands
               else cands.filter (occPassesSchemeFilter db schemes)
  let sorted := stSort occLabelPrec cands
  sorted.map (fun o =>
    { uri := o.uri
      label := o.label
      description := o.description
      isco_code := o.isco_code
      required_skills := dedupKeepFirst o.requires
      groups := (dedupKeepFirst ((memberGroups db o).map groupDisplay)).filter
                  (fun g => g ≠ "")
      schemes := (dedupKeepFirst (o.inSchemes.filterMap (schemeDisplay db))).filter
                  (fun s => s ≠ "") })

/-- `RecommendationsRepo._get_skill_labels`: label of each requested skill
uri, falling back to the uri itself when unresolved; a duplicated uri in the
query result takes the last label (Python dict construction). -/
def getSkillLabels (db : GraphDB) (uris : List String) : List String :=
  uris.map (fun u =>
    match (db.skills.filter (fun s => s.1 = u)).getLast? with
    | some s => s.2
    | none => u)

/-- `scores_map.get(uri, 0.0)` where `scores_map` is the dict built from the
FAISS result pairs (later entries overwrite earlier ones). -/
def lookupScore (faissResults : List (String × ℚ)) (uri : String) : ℚ :=
  match faissResults.reverse.find? (fun p => p.1 = uri) with
  | some p => p.2
  | none => 0

/-- The match-percentage formula of `RecommendationsRepo.get_recommendations`
(step 5): `len(matched)/len(required)*100` over the uri sets, `0.0` when the
required uri set is empty. -/
def matchPercentage (requiredSet userSet : Finset String) : ℚ :=
  if requiredSet = ∅ then 0
  else ((requiredSet ∩ userSet).card : ℚ) / (requiredSet.card : ℚ) * 100

/-- An occupation dict after step 5 of `get_recommendations` added the
similarity score and the skill-gap fields. -/
structure EnrichedOcc where
  uri : String
  label : String
  description : Option String
  isco_code : Option String
  similarity_score : ℚ
  required_skills : List SkillRec
  matched_skills : List SkillRec
  missing_skills : List SkillRec
  match_percentage : ℚ
  groups : List String
  schemes : List String
deriving DecidableEq

/-- The `key=lambda x: x["similarity_score"], reverse=True` comparison of
step 6 of `get_recommendations` (descending stable sort). -/
def scoreDescPrec : EnrichedOcc → EnrichedOcc → Bool :=
  precDesc (fun e => e.similarity_score)

/-- Step 5 of `RecommendationsRepo.get_recommendations` for one occupation:
attach the similarity score and partition the required skills into
matched/missing by uri-set membership. -/
def enrich (skill_uris : List String) (faissResults : List (String × ℚ))
    (occ : OccRecord) : EnrichedOcc :=
  let requiredSet : Finset String := (occ.required_skills.map (fun s => s.uri)).toFinset
  let userSet : Finset String := skill_uris.toFinset
  let matchedUris := requiredSet ∩ userSet
  let missingUris := requiredSet \ userSet
  { uri := occ.uri
    label := occ.label
    description := occ.description
    isco_code := occ.isco_code
    similarity_score := lookupScore faissResults occ.uri
    required_skills := occ.required_skills
    matched_skills := occ.required_skills.filter (fun s => decide (s.uri ∈ matchedUris))
    missing_skills := occ.required_skills.filter (fun s => decide (s.uri ∈ missingUris))
    match_percentage := matchPercentage requiredSet userSet
    groups := occ.groups
    schemes := occ.schemes }

/-- The combined query text of step 2: `" ".join(skill_labels)`. -/
def repoQueryText (db : GraphDB) (skill_uris : List String) : String :=
  String.intercalate " " (getSkillLabels db skill_uris)

/-- Steps 2–3 of `RecommendationsRepo.get_recommendations`: encode the
joined label text and search the index, over-fetching `limit * 3`
candidates when a group or scheme filter is active and `limit`
otherwise. -/
def faissResultsOf (db : GraphDB) (encode : String → List ℚ)
    (search : List ℚ → Nat → List (String × ℚ)) (skill_uris : List String)
    (occupation_groups : List String) (schemes : List String) (limit : Nat) :
    List (String × ℚ) :=
  search (encode (repoQueryText db skill_uris))
    (if occupation_groups.isEmpty && schemes.isEmpty then limit else limit * 3)

/-- `RecommendationsRepo.get_recommendations`.  `encode` and `search` stand
for `ml_engine.encode` and `ml_engine.search`; `faissResultsOf` above is
steps 2–3 (encode the joined text, over-fetch `limit*3` when a group or
scheme filter is active).  Remaining steps: fetch and filter candidates
from the graph, enrich each with the similarity score and skill-gap data,
sort by similarity descending with Python's stable sort, truncate to
`limit`.  `occupation_groups = []` and `schemes = []` play the role of
`None` (both are falsy in the Python conditions). -/
def getRecommendations (db : GraphDB) (encode : String → List ℚ)
    (search : List ℚ → Nat → List (String × ℚ)) (skill_uris : List String)
    (occupation_groups : List String) (schemes : List String) (limit : Nat) :
    List EnrichedOcc :=
  if skill_uris.isEmpty then []
  else
    let faissResults := faissResultsOf db encode search skill_uris
                          occupation_groups schemes limit
    if faissResults.isEmpty then []
    else
      let candidate_uris := faissResults.map (fun p => p.1)
      let occs := fetchOccupationsWithSkills db candidate_uris skill_uris
                    occupation_groups schemes
      let enriched := occs.map (enrich skill_uris faissResults)
      (stSort scoreDescPrec enriched).take limit

/-- The similarity conversion of `MLEngine.search` in `app/core/ml.py`:
`max(0.0, 1.0 - (distance * distance / 2.0))`. -/
def similarityScore (distance : ℚ) : ℚ :=
  max 0 (1 - distance * distance / 2)

/-- The warning text logged by `MLEngine.search` for an out-of-range id. -/
def invalidIdxWarning (idx : Int) : String :=
  "Invalid FAISS index: " ++ toString idx

/-- The result loop of `MLEngine.search`: map each raw `(idx, distance)`
pair to `(occupation_uri, similarity)`; ids outside
`[0, len(occupation_uris))` are skipped and a warning is collected instead
(the second component models the `logger.warning` calls, in order). -/
def mlSearchResults (occupation_uris : List String) :
    List (Int × ℚ) → List (String × ℚ) × List String
  | [] => ([], [])
  | (idx, distance) :: rest =>
    let r := mlSearchResults occupation_uris rest
    if idx < 0 ∨ (occupation_uris.length : Int) ≤ idx then
      (r.1, invalidIdxWarning idx :: r.2)
    else
      ((occupation_uris.getD idx.toNat "", similarityScore distance) :: r.1, r.2)

/-- Componentwise sum of a list of vectors (`np.sum` over axis 0). -/
def vecSum : List (List ℚ) → List ℚ
  | [] => []
  | [v] => v
  | v :: rest => List.zipWith (fun a b => a + b) v (vecSum rest)

/-- `np.mean(embeddings, axis=0)`: componentwise mean. -/
def vecMean (vs : List (List ℚ)) : List ℚ :=
  (vecSum vs).map (fun x => x / (vs.length : ℚ))

/-- Squared euclidean norm of a vector; a vector is unit length
iff its squared norm is 1. -/
def vecNormSq (v : List ℚ) : ℚ :=
  (v.map (fun x => x * x)).sum

/-- The query vector of the alternate path
(`recommendation_service.get_recommendations`): each skill encoded
independently, the raw vectors averaged; no further normalization. -/
def altUserVec (skills : List String) (encode : String → List ℚ) : List ℚ :=
  vecMean (skills.map encode)

/-- The distance-to-similarity conversion of the alternate path:
`1.0 / (1.0 + dist)`. -/
def altSimilarity (dist : ℚ) : ℚ :=
  1 / (1 + dist)

/-- One entry of the alternate path's response (`RecommendationItem`). -/
structure RecommendationItem where
  occupation_uri : String
  occupation_label : String
  score : ℚ
deriving DecidableEq

/-- The result loop of `recommendation_service.get_recommendations` over
`zip(distances[0], indices[0])`: out-of-range ids are skipped silently
(`continue`, no logging — the warning component is always empty), valid ids
are resolved against the metadata rows `(occupation_uri, occupation_label)`
and scored with `altSimilarity`. -/
def altRecsFromSearch (metadata : List (String × String)) :
    List (ℚ × Int) → List RecommendationItem × List String
  | [] => ([], [])
  | (dist, idx) :: rest =>
    let r := altRecsFromSearch metadata rest
    if idx < 0 ∨ (metadata.length : Int) ≤ idx then r
    else
      ({ occupation_uri := (metadata.getD idx.toNat ("", "")).1
         occupation_label := (metadata.getD idx.toNat ("", "")).2
         score := altSimilarity dist } :: r.1, r.2)

/-- `recommendation_service.get_recommendations`: empty input returns an
empty list (a success value, not an error); otherwise encode each skill,
average, search, and map the hits through `altRecsFromSearch`. -/
def altGetRecommendations (skills : List String) (top_k : Nat)
    (encode : String → List ℚ) (searchIdx : List ℚ → Nat → List (ℚ × Int))
    (metadata : List (String × String)) : List RecommendationItem :=
  if skills.isEmpty then []
  else (altRecsFromSearch metadata (searchIdx (altUserVec skills encode) top_k)).1

/-- A matched or missing skill as rendered by `RecommendationsService`
(`SkillMatch` schema): `relation_type` is non-null after the default was
applied. -/
structure SkillMatch where
  uri : String
  label : String
  skill_type : Option String
  relation_type : String
deriving DecidableEq

/-- The per-skill constructor used by `RecommendationsService`:
`relation_type=skill.get("relation_type") or default`. -/
def toSkillMatch (default : String) (s : SkillRec) : SkillMatch :=
  { uri := s.uri
    label := s.label
    skill_type := s.skill_type
    relation_type := pyOr s.relation_type default }

/-- One `OccupationRecommendation` of the response schema. -/
structure OccupationRecommendationOut where
  uri : String
  label : String
  description : Option String
  isco_code : Option String
  similarity_score : ℚ
  match_percentage : ℚ
  matched_skills : List SkillMatch
  missing_skills : List SkillMatch
  groups : List String
  schemes : List String
deriving DecidableEq

/-- The per-occupation transformation of
`RecommendationsService.get_recommendations`: matched skills default a null
relation type to `"essential"`, missing skills default it to
`"optional"`. -/
def transformRec (rd : EnrichedOcc) : OccupationRecommendationOut :=
  { uri := rd.uri
    label := rd.label
    description := rd.description
    isco_code := rd.isco_code
    similarity_score := rd.similarity_score
    match_percentage := rd.match_percentage
    matched_skills := rd.matched_skills.map (toSkillMatch "essential")
    missing_skills := rd.missing_skills.map (toSkillMatch "optional")
    groups := rd.groups
    schemes := rd.schemes }

/-- The request schema (`RecommendationRequest`); `occupation_groups = []`
and `schemes = []` stand for `None`, `limit` is an unvalidated integer. -/
structure RecommendationRequest where
  skills : List String
  occupation_groups : List String
  schemes : List String
  limit : Int
deriving DecidableEq

/-- The response schema (`RecommendationResponse`). -/
structure RecommendationResponseOut where
  total : Nat
  user_skills : List String
  recommendations : List OccupationRecommendationOut
deriving DecidableEq

/-- `RecommendationsService.get_recommendations`: validation happens before
the repository is consulted, raising `ValueError` (modelled as
`Except.error` with the exception message) for empty skills or an
out-of-range limit; otherwise the repository result is transformed into the
response schema.  `repoFn` stands for `self.repo.get_recommendations`. -/
def serviceGetRecommendations
    (repoFn : List String → List String → List String → Nat → List EnrichedOcc)
    (req : RecommendationRequest) : Except String RecommendationResponseOut :=
  if req.skills.isEmpty then Except.error "At least one skill URI is required"
  else if req.limit ≤ 0 then Except.error "Limit must be greater than 0"
  else if 100 < req.limit then Except.error "Limit cannot exceed 100"
  else
    let recs := (repoFn req.skills req.occupation_groups req.schemes
                  req.limit.toNat).map transformRec
    Except.ok { total := recs.length, user_skills := req.skills, recommendations := recs }

/-- Direct membership: the occupation is in a group whose uri is one of
the requested filter uris. -/
def DirectGroupMember (db : GraphDB) (ogs : List String) (o : Occupation) : Prop :=
  ∃ g ∈ memberGroups db o, g.uri ∈ ogs

/-- Ancestor membership: the occupation is in a group that has a requested
group among its broader ancestors within 5 hops. -/
def AncestorGroupMember (db : GraphDB) (ogs : List String) (o : Occupation) : Prop :=
  ∃ g ∈ memberGroups db o, ∃ p ∈ reachBroader db 5 g.uri,
    (∃ gn ∈ db.groups, gn.uri = p) ∧ p ∈ ogs

/-- Code membership: the occupation is in a group whose code starts with the
code derived from one of the requested group uris. -/
def CodeGroupMember (db : GraphDB) (ogs : List String) (o : Occupation) : Prop :=
  ∃ g ∈ memberGroups db o, ∃ c, g.code = some c ∧
    ∃ fu ∈ ogs, (c.startsWith (groupCodeOfUri fu)) = true

/-- Example required-skill edge: python, essential. -/
def exSkillPy : SkillRec :=
  { uri := "skill:py", label := "python", relation_type := some "essential"
    skill_type := some "skill" }

/-- Example required-skill edge with a null relation type. -/
def exSkillSql : SkillRec :=
  { uri := "skill:sql", label := "sql", relation_type := none, skill_type := none }

/-- Example required-skill edge: python, optional. -/
def exSkillPyOpt : SkillRec :=
  { uri := "skill:py", label := "python", relation_type := some "optional"
    skill_type := none }

/-- A tiny skill taxonomy used to evaluate the model on concrete inputs:
two skills, two occupations (labels "A" < "B"), one occupation group with
a broader parent, and one concept scheme. -/
def exDb : GraphDB :=
  { occupations :=
      [ { uri := "occ:B", label := "B", description := none, isco_code := some "2222"
          requires := [exSkillPy, exSkillSql]
          inOccGroups := ["grp:child"], inSchemes := ["scheme:digital"] }
      , { uri := "occ:A", label := "A", description := some "desc", isco_code := none
          requires := [exSkillPyOpt]
          inOccGroups := [], inSchemes := [] } ]
    groups :=
      [ { uri := "grp:child", code := some "2221", label := some "Child" }
      , { uri := "grp:parent", code := some "22", label := none } ]
    broader := [("grp:child", "grp:parent")]
    skills := [("skill:py", "python"), ("skill:sql", "sql")]
    schemeNodes := [("scheme:digital", some "Digital")] }

/-- An encoder stub for concrete evaluations (the real encoder is an
external model artifact). -/
def exEncode : String → List ℚ := fun _ => [1, 0]

/-- A search stub returning two equal-similarity candidates, the "B"
occupation first. -/
def exSearchTie : List ℚ → Nat → List (String × ℚ) := fun _ _ =>
  [("occ:B", 1/2), ("occ:A", 1/2)]

/-- A search stub returning both occupations with distinct scores. -/
def exSearch : List ℚ → Nat → List (String × ℚ) := fun _ _ =>
  [("occ:B", 9/10), ("occ:A", 3/10)]

/-- An encoder for the alternate path mapping the two example skill texts to
the two standard unit vectors of the plane. -/
def exEncodeAB : String → List ℚ := fun s =>
  if s = "a" then [1, 0] else if s = "b" then [0, 1] else [5, 5]

/-- The enriched record the repo produces for occupation "occ:A" on the
example database with user skills `["skill:py"]` and `exSearch` scores. -/
def exResultA : EnrichedOcc :=
  { uri := "occ:A", label := "A", description := some "desc", isco_code := none
    similarity_score := 3/10
    required_skills := [exSkillPyOpt]
    matched_skills := [exSkillPyOpt]
    missing_skills := []
    match_percentage := 100
    groups := [], schemes := [] }

/-- The enriched record the repo produces for occupation "occ:B" on the
example database with user skills `["skill:py"]` and `exSearch` scores. -/
def exResultB : EnrichedOcc :=
  { uri := "occ:B", label := "B", description := none, isco_code := some "2222"
    similarity_score := 9/10
    required_skills := [exSkillPy, exSkillSql]
    matched_skills := [exSkillPy]
    missing_skills := [exSkillSql]
    match_percentage := 50
    groups := ["Child"], schemes := ["Digital"] }

theorem mem_stInsert {α : Type} (prec : α → α → Bool) (x a : α) (l : List α) :
    a ∈ stInsert prec x l ↔ a = x ∨ a ∈ l := by
  induction l with
  | nil => simp [stInsert]
  | cons y ys ih =>
    simp only [stInsert]
    by_cases h : prec x y = true
    · rw [if_pos h]
      simp only [List.mem_cons]
    · rw [if_neg h]
      simp only [List.mem_cons, ih]
      tauto

theorem stInsert_sorted {α : Type} (prec : α → α → Bool)
    (hA1 : ∀ a b, prec a b = true → prec b a = false)
    (hA2 : ∀ x y z, prec x y = true → prec z y = false → prec z x = false)
    (x : α) (l : List α)
    (hl : l.Pairwise (fun a b => prec b a = false)) :
    (stInsert prec x l).Pairwise (fun a b => prec b a = false) := by
  induction l with
  | nil => simp [stInsert]
  | cons y ys ih =>
    rcases List.pairwise_cons.mp hl with ⟨hy, hys⟩
    by_cases h : prec x y = true
    · simp only [stInsert, h, if_true]
      refine List.pairwise_cons.mpr ⟨?_, hl⟩
      intro w hw
      rcases List.mem_cons.mp hw with hwy | hwys
      · subst hwy; exact hA1 _ _ h
      · exact hA2 x y w h (hy w hwys)
    · simp only [stInsert, h, if_false]
      refine List.pairwise_cons.mpr ⟨?_, ih hys⟩
      intro w hw
      rcases (mem_stInsert prec x w ys).mp hw with hwx | hwys
      · subst hwx
        exact Bool.eq_false_iff.mpr h
      · exact hy w hwys

theorem stSort_go_sorted {α : Type} (prec : α → α → Bool)
    (hA1 : ∀ a b, prec a b = true → prec b a = false)
    (hA2 : ∀ x y z, prec x y = true → prec z y = false → prec z x = false)
    (l acc : List α)
    (hacc : acc.Pairwise (fun a b => prec b a = false)) :
    (l.foldl (fun a x => stInsert prec x a) acc).Pairwise
      (fun a b => prec b a = false) := by
  induction l generalizing acc with
  | nil => simpa using hacc
  | cons x xs ih =>
    simp only [List.foldl_cons]
    exact ih _ (stInsert_sorted prec hA1 hA2 x acc hacc)

theorem stSort_sorted {α : Type} (prec : α → α → Bool)
    (hA1 : ∀ a b, prec a b = true → prec b a = false)
    (hA2 : ∀ x y z, prec x y = true → prec z y = false → prec z x = false)
    (l : List α) :
    (stSort prec l).Pairwise (fun a b => prec b a = false) :=
  stSort_go_sorted prec hA1 hA2 l [] (by simp)

theorem stInsert_pairwiseR {α : Type} (prec : α → α → Bool) (R : α → α → Prop)
    (hA3 : ∀ x y z, prec x y = true → prec z y = false → prec x z = true)
    (hR : ∀ a b, prec a b = true → R a b)
    (x : α) (l : List α)
    (hsort : l.Pairwise (fun a b => prec b a = false))
    (hl : l.Pairwise R) (hx : ∀ y ∈ l, R y x) :
    (stInsert prec x l).Pairwise R := by
  induction l with
  | nil => simp [stInsert]
  | cons y ys ih =>
    rcases List.pairwise_cons.mp hsort with ⟨hsy, hsys⟩
    rcases List.pairwise_cons.mp hl with ⟨hly, hlys⟩
    by_cases h : prec x y = true
    · simp only [stInsert, h, if_true]
      refine List.pairwise_cons.mpr ⟨?_, hl⟩
      intro w hw
      rcases List.mem_cons.mp hw with hwy | hwys
      · subst hwy; exact hR _ _ h
      · exact hR _ _ (hA3 x y w h (hsy w hwys))
    · simp only [stInsert, h, if_false]
      refine List.pairwise_cons.mpr ⟨?_, ?_⟩
      · intro w hw
        rcases (mem_stInsert prec x w ys).mp hw with hwx | hwys
        · subst hwx; exact hx y (List.mem_cons_self y ys)
        · exact hly w hwys
      · exact ih hsys hlys (fun z hz => hx z (List.mem_cons_of_mem y hz))

theorem stSort_go_pairwiseR {α : Type} (prec : α → α → Bool) (R : α → α → Prop)
    (hA1 : ∀ a b, prec a b = true → prec b a = false)
    (hA2 : ∀ x y z, prec x y = true → prec z y = false → prec z x = false)
    (hA3 : ∀ x y z, prec x y = true → prec z y = false → prec x z = true)
    (hR : ∀ a b, prec a b = true → R a b)
    (l acc : List α)
    (hsort : acc.Pairwise (fun a b => prec b a = false))
    (hacc : acc.Pairwise R)
    (hcross : ∀ y ∈ acc, ∀ x ∈ l, R y x)
    (hl : l.Pairwise R) :
    (l.foldl (fun a x => stInsert prec x a) acc).Pairwise R := by
  induction l generalizing acc with
  | nil => simpa using hacc
  | cons x xs ih =>
    rcases List.pairwise_cons.mp hl with ⟨hlx, hlxs⟩
    simp only [List.foldl_cons]
    refine ih _ (stInsert_sorted prec hA1 hA2 x acc hsort)
      (stInsert_pairwiseR prec R hA3 hR x acc hsort hacc
        (fun y hy => hcross y hy x (List.mem_cons_self x xs)))
      ?_ hlxs
    intro y hy z hz
    rcases (mem_stInsert prec x y acc).mp hy with hyx | hyacc
    · subst hyx; exact hlx z hz
    · exact hcross y hyacc z (List.mem_cons_of_mem x hz)

/-- Stability of `stSort`: any relation `R` that holds for all pairs in the
input order and for all strictly reordered pairs still holds pairwise in the
sorted output. -/
theorem stSort_stable {α : Type} (prec : α → α → Bool) (R : α → α → Prop)
    (hA1 : ∀ a b, prec a b = true → prec b a = false)
    (hA2 : ∀ x y z, prec x y = true → prec z y = false → prec z x = false)
    (hA3 : ∀ x y z, prec x y = true → prec z y = false → prec x z = true)
    (hR : ∀ a b, prec a b = true → R a b)
    (l : List α) (hl : l.Pairwise R) :
    (stSort prec l).Pairwise R :=
  stSort_go_pairwiseR prec R hA1 hA2 hA3 hR l []
    (by simp) (by simp) (by simp) hl

theorem mem_stSort_go {α : Type} (prec : α → α → Bool) :
    ∀ (l acc : List α) (a : α),
      a ∈ l.foldl (fun ac x => stInsert prec x ac) acc ↔ a ∈ acc ∨ a ∈ l := by
  intro l
  induction l with
  | nil => simp
  | cons x xs ih =>
    intro acc a
    simp only [List.foldl_cons, ih, mem_stInsert, List.mem_cons]
    tauto

theorem mem_stSort {α : Type} (prec : α → α → Bool) (l : List α) (a : α) :
    a ∈ stSort prec l ↔ a ∈ l := by
  simp [stSort, mem_stSort_go]

theorem precAsc_hA1 {α : Type} {κ : Type} [LinearOrder κ] (key : α → κ) :
    ∀ a b, precAsc key a b = true → precAsc key b a = false := by
  intro a b h
  simp only [precAsc, decide_eq_true_eq] at h
  simpa [precAsc] using le_of_lt h

theorem precAsc_hA2 {α : Type} {κ : Type} [LinearOrder κ] (key : α → κ) :
    ∀ x y z, precAsc key x y = true → precAsc key z y = false →
      precAsc key z x = false := by
  intro x y z h1 h2
  simp only [precAsc, decide_eq_true_eq] at h1
  simp only [precAsc, decide_eq_false_iff_not, not_lt] at h2 ⊢
  exact le_of_lt (lt_of_lt_of_le h1 h2)

theorem precAsc_hA3 {α : Type} {κ : Type} [LinearOrder κ] (key : α → κ) :
    ∀ x y z, precAsc key x y = true → precAsc key z y = false →
      precAsc key x z = true := by
  intro x y z h1 h2
  simp only [precAsc, decide_eq_true_eq] at h1 ⊢
  simp only [precAsc, decide_eq_false_iff_not, not_lt] at h2
  exact lt_of_lt_of_le h1 h2

theorem precDesc_hA1 {α : Type} {κ : Type} [LinearOrder κ] (key : α → κ) :
    ∀ a b, precDesc key a b = true → precDesc key b a = false := by
  intro a b h
  simp only [precDesc, decide_eq_true_eq] at h
  simpa [precDesc] using le_of_lt h

theorem precDesc_hA2 {α : Type} {κ : Type} [LinearOrder κ] (key : α → κ) :
    ∀ x y z, precDesc key x y = true → precDesc key z y = false →
      precDesc key z x = false := by
  intro x y z h1 h2
  simp only [precDesc, decide_eq_true_eq] at h1
  simp only [precDesc, decide_eq_false_iff_not, not_lt] at h2 ⊢
  exact le_of_lt (lt_of_le_of_lt h2 h1)

theorem precDesc_hA3 {α : Type} {κ : Type} [LinearOrder κ] (key : α → κ) :
    ∀ x y z, precDesc key x y = true → precDesc key z y = false →
      precDesc key x z = true := by
  intro x y z h1 h2
  simp only [precDesc, decide_eq_true_eq] at h1 ⊢
  simp only [precDesc, decide_eq_false_iff_not, not_lt] at h2
  exact lt_of_le_of_lt h2 h1

/-- Claim C5 (amended): `MLEngine.search` converts an L2 distance `d` into
`max(0, 1 - d^2/2)`, which always lies in [0, 1] and agrees with `1 - d^2/2`
whenever the latter is nonnegative; the alternate service path instead uses
`1/(1+d)` (see the counterexample). -/
theorem C5_similarity_conversion (d : ℚ) :
    0 ≤ similarityScore d ∧ similarityScore d ≤ 1 ∧
      (d * d ≤ 2 → similarityScore d = 1 - d * d / 2) := by
  refine ⟨le_max_left 0 _, ?_, ?_⟩
  · have h : 0 ≤ d * d := mul_self_nonneg d
    have : 1 - d * d / 2 ≤ 1 := by linarith
    exact max_le (by norm_num) this
  · intro h
    have : (0 : ℚ) ≤ 1 - d * d / 2 := by linarith
    exact max_eq_right this

/-- Witness for C5 at `d = 1`: the hypothesis `d * d ≤ 2` holds and the
unclamped value is reported. -/
theorem C5_similarity_conversion_witness :
    (1 : ℚ) * 1 ≤ 2 ∧ similarityScore 1 = 1 - 1 * 1 / 2 :=
  ⟨by norm_num, (C5_similarity_conversion 1).2.2 (by norm_num)⟩

/-- Counterexample for C5 as stated: at distance 2 the alternate path
(`recommendation_service.get_recommendations`, `1/(1+dist)`) reports 1/3,
while the claimed clamped `1 - d^2/2` conversion gives 0. -/
theorem C5_counterexample :
    altSimilarity 2 = 1/3 ∧ similarityScore 2 = 0 ∧ (1/3 : ℚ) ≠ 0 := by
  refine ⟨?_, ?_, by norm_num⟩
  · norm_num [altSimilarity]
  · norm_num [similarityScore]

/-- Claim C6: with the required uri set fixed, the repo's match percentage
is monotone in the user's skill set. -/
theorem C6_matchPercentage_monotone (R U U' : Finset String) (h : U ⊆ U') :
    matchPercentage R U ≤ matchPercentage R U' := by
  unfold matchPercentage
  by_cases hR : R = ∅
  · simp [hR]
  · rw [if_neg hR, if_neg hR]
    have hcard : 0 < (R.card : ℚ) := by
      exact_mod_cast Finset.card_pos.mpr (Finset.nonempty_iff_ne_empty.mpr hR)
    have hle : ((R ∩ U).card : ℚ) ≤ ((R ∩ U').card : ℚ) := by
      exact_mod_cast Finset.card_le_card
        (Finset.inter_subset_inter (Finset.Subset.refl R) h)
    gcongr

/-- Witness for C6: growing the user set from ∅ to {skill:py} does not
decrease the percentage against required set {skill:py}. -/
theorem C6_matchPercentage_monotone_witness :
    (∅ : Finset String) ⊆ {"skill:py"} ∧
      matchPercentage {"skill:py"} ∅ ≤ matchPercentage {"skill:py"} {"skill:py"} :=
  ⟨Finset.empty_subset _, C6_matchPercentage_monotone _ _ _ (Finset.empty_subset _)⟩

/-- Claim C7 (amended): the repo path joins the resolved labels into one
string (encoded once), while the alternate path averages independently
encoded vectors and performs no re-normalization: the mean of the unit
vectors [1,0] and [0,1] is [1/2,1/2], of squared norm 1/2, and is used as
the query as is (the mean of a single vector is that vector). -/
theorem C7_query_vector_construction :
    repoQueryText exDb ["skill:py", "skill:sql"] = "python sql" ∧
    (∀ v : List ℚ, vecMean [v] = v) ∧
    altUserVec ["a", "b"] exEncodeAB = [1/2, 1/2] ∧
    vecNormSq (altUserVec ["a", "b"] exEncodeAB) = 1/2 := by
  refine ⟨by decide, ?_, ?_, ?_⟩
  · intro v
    simp [vecMean, vecSum]
  · norm_num +decide [altUserVec, vecMean, vecSum, exEncodeAB]
  · norm_num +decide [altUserVec, vecMean, vecSum, vecNormSq, exEncodeAB]

/-- Counterexample for C7 as stated: the alternate path's query vector for
two independently encoded skills is the raw mean [1/2, 1/2], whose squared
norm is 1/2 ≠ 1 — it is not re-normalized to unit length before search. -/
theorem C7_counterexample :
    vecNormSq (altUserVec ["a", "b"] exEncodeAB) ≠ 1 := by
  norm_num +decide [altUserVec, vecMean, vecSum, vecNormSq, exEncodeAB]

/-- Claim C8 (amended): `RecommendationsService.get_recommendations` rejects
an empty skill list with a `ValueError` before the repository (and hence any
embedding, index search or graph query) is consulted: the outcome is the
same error for every repository function. The alternate path instead
returns an empty success list (see the counterexample). -/
theorem C8_empty_skills_rejected
    (repoFn : List String → List String → List String → Nat → List EnrichedOcc)
    (req : RecommendationRequest) (h : req.skills = []) :
    serviceGetRecommendations repoFn req =
      Except.error "At least one skill URI is required" := by
  simp [serviceGetRecommendations, h]

/-- Witness for C8: the empty request is rejected with the validation
message, independently of the repository. -/
theorem C8_empty_skills_rejected_witness :
    ({ skills := [], occupation_groups := [], schemes := [], limit := 20 } :
        RecommendationRequest).skills = [] ∧
    serviceGetRecommendations (fun _ _ _ _ => [])
        { skills := [], occupation_groups := [], schemes := [], limit := 20 } =
      Except.error "At least one skill URI is required" :=
  ⟨rfl, C8_empty_skills_rejected _ _ rfl⟩

/-- Counterexample for C8 as stated: the alternate path
(`recommendation_service.get_recommendations`) returns the empty list — an
empty success result, not an error — for an empty skill set. -/
theorem C8_counterexample :
    altGetRecommendations [] 5 exEncodeAB (fun _ _ => [(0, 0)]) [("u", "l")] =
      ([] : List RecommendationItem) := by
  simp [altGetRecommendations]

/-- Claim C9 (amended): `MLEngine.search` keeps exactly the in-range ids
(mapped to uri and similarity), emits one warning per out-of-range id, and
never fails: every raw entry becomes either a result or a warning. The
alternate path also skips such ids and returns the rest, but logs nothing
(see the counterexample). -/
theorem C9_invalid_ids_skipped (uris : List String) (raw : List (Int × ℚ)) :
    (mlSearchResults uris raw).1 =
      raw.filterMap (fun p =>
        if p.1 < 0 ∨ (uris.length : Int) ≤ p.1 then none
        else some (uris.getD p.1.toNat "", similarityScore p.2)) ∧
    (mlSearchResults uris raw).2 =
      raw.filterMap (fun p =>
        if p.1 < 0 ∨ (uris.length : Int) ≤ p.1 then some (invalidIdxWarning p.1)
        else none) ∧
    (mlSearchResults uris raw).1.length + (mlSearchResults uris raw).2.length =
      raw.length := by
  induction raw with
  | nil => simp [mlSearchResults]
  | cons p rest ih =>
    obtain ⟨h1, h2, h3⟩ := ih
    by_cases h : p.1 < 0 ∨ (uris.length : Int) ≤ p.1
    · simp only [mlSearchResults, if_pos h, List.filterMap_cons]
      refine ⟨h1, ?_, ?_⟩
      · simp only [if_pos h, h2]
      · simp only [List.length_cons]
        omega
    · simp only [mlSearchResults, if_neg h, List.filterMap_cons]
      refine ⟨?_, ?_, ?_⟩
      · simp only [if_neg h, h1]
      · simp only [if_neg h, h2]
      · simp only [List.length_cons]
        omega

/-- Counterexample for C9 as stated: the alternate path's loop, given the
out-of-range id -1 followed by a valid hit, skips the bad entry and returns
the remaining result, but logs no warning at all (empty warning list). -/
theorem C9_counterexample :
    altRecsFromSearch [("occ:X", "X")] [(3, -1), (1/2, 0)] =
      ([{ occupation_uri := "occ:X", occupation_label := "X", score := 2/3 }],
        []) := by
  norm_num [altRecsFromSearch, altSimilarity]

/-- Claim C10: the service substitutes a partition-dependent default for a
null relation type: a matched skill is reported as "essential", a missing
skill as "optional", so the same edge is classified differently depending
only on which side of the partition it fell. -/
theorem C10_null_relation_defaults (rd : EnrichedOcc) (s : SkillRec)
    (h : s.relation_type = none) :
    (s ∈ rd.matched_skills →
      toSkillMatch "essential" s ∈ (transformRec rd).matched_skills ∧
      (toSkillMatch "essential" s).relation_type = "essential") ∧
    (s ∈ rd.missing_skills →
      toSkillMatch "optional" s ∈ (transformRec rd).missing_skills ∧
      (toSkillMatch "optional" s).relation_type = "optional") ∧
    (toSkillMatch "essential" s).relation_type ≠
      (toSkillMatch "optional" s).relation_type := by
  refine ⟨?_, ?_, ?_⟩
  · intro hmem
    exact ⟨List.mem_map_of_mem _ hmem, by simp [toSkillMatch, pyOr, h]⟩
  · intro hmem
    exact ⟨List.mem_map_of_mem _ hmem, by simp [toSkillMatch, pyOr, h]⟩
  · simp [toSkillMatch, pyOr, h]

/-- Witness for C10: the sql edge of the example output has a null relation
type, sits among the missing skills, and is rendered as "optional". -/
theorem C10_null_relation_defaults_witness :
    exSkillSql.relation_type = none ∧
    exSkillSql ∈ exResultB.missing_skills ∧
    toSkillMatch "optional" exSkillSql ∈ (transformRec exResultB).missing_skills ∧
    (toSkillMatch "optional" exSkillSql).relation_type = "optional" :=
  ⟨rfl, by decide,
    ((C10_null_relation_defaults exResultB exSkillSql rfl).2.1 (by decide)).1,
    ((C10_null_relation_defaults exResultB exSkillSql rfl).2.1 (by decide)).2⟩

theorem matchPercentage_bounds (R U : Finset String) :
    0 ≤ matchPercentage R U ∧ matchPercentage R U ≤ 100 := by
  unfold matchPercentage
  by_cases hR : R = ∅
  · rw [if_pos hR]
    norm_num
  · rw [if_neg hR]
    have hcard : 0 < (R.card : ℚ) := by
      exact_mod_cast Finset.card_pos.mpr (Finset.nonempty_iff_ne_empty.mpr hR)
    have hle : ((R ∩ U).card : ℚ) ≤ (R.card : ℚ) := by
      exact_mod_cast Finset.card_le_card Finset.inter_subset_left
    constructor
    · positivity
    · calc ((R ∩ U).card : ℚ) / (R.card : ℚ) * 100 ≤ 1 * 100 :=
            mul_le_mul_of_nonneg_right ((div_le_one hcard).mpr hle) (by norm_num)
        _ = 100 := by norm_num

theorem mem_getRecommendations (db : GraphDB) (encode : String → List ℚ)
    (search : List ℚ → Nat → List (String × ℚ)) (skill_uris ogs schemes : List String)
    (limit : Nat) (r : EnrichedOcc)
    (hr : r ∈ getRecommendations db encode search skill_uris ogs schemes limit) :
    ∃ occ ∈ fetchOccupationsWithSkills db
        ((faissResultsOf db encode search skill_uris ogs schemes limit).map
          (fun p => p.1))
        skill_uris ogs schemes,
      r = enrich skill_uris
            (faissResultsOf db encode search skill_uris ogs schemes limit) occ := by
  unfold getRecommendations at hr
  by_cases he : skill_uris.isEmpty
  · rw [if_pos he] at hr
    exact absurd hr (List.not_mem_nil r)
  · rw [if_neg he] at hr
    simp only [] at hr
    by_cases hf : (faissResultsOf db encode search skill_uris ogs schemes limit).isEmpty
    · rw [if_pos hf] at hr
      exact absurd hr (List.not_mem_nil r)
    · rw [if_neg hf] at hr
      have hr1 := List.mem_of_mem_take hr
      rw [mem_stSort] at hr1
      rcases List.mem_map.mp hr1 with ⟨occ, hocc, rfl⟩
      exact ⟨occ, hocc, rfl⟩

theorem getRecommendations_length_le (db : GraphDB) (encode : String → List ℚ)
    (search : List ℚ → Nat → List (String × ℚ)) (skill_uris ogs schemes : List String)
    (limit : Nat) :
    (getRecommendations db encode search skill_uris ogs schemes limit).length ≤
      limit := by
  unfold getRecommendations
  by_cases he : skill_uris.isEmpty
  · rw [if_pos he]
    simp
  · rw [if_neg he]
    simp only []
    by_cases hf : (faissResultsOf db encode search skill_uris ogs schemes limit).isEmpty
    · rw [if_pos hf]
      simp
    · rw [if_neg hf]
      exact List.length_take_le _ _

/-- Claim C1: for every non-empty skill-uri list and every limit in [1, 100],
the repo returns at most `limit` recommendations, and every returned
match percentage lies in [0, 100]. -/
theorem C1_limit_and_percentage_bounds (db : GraphDB) (encode : String → List ℚ)
    (search : List ℚ → Nat → List (String × ℚ)) (skill_uris ogs schemes : List String)
    (limit : Nat) (h1 : 1 ≤ limit) (h2 : limit ≤ 100) (h3 : skill_uris ≠ []) :
    (getRecommendations db encode search skill_uris ogs schemes limit).length ≤ limit ∧
    ∀ r ∈ getRecommendations db encode search skill_uris ogs schemes limit,
      0 ≤ r.match_percentage ∧ r.match_percentage ≤ 100 := by
  refine ⟨getRecommendations_length_le db encode search skill_uris ogs schemes limit, ?_⟩
  intro r hr
  rcases mem_getRecommendations db encode search skill_uris ogs schemes limit r hr
    with ⟨occ, _, rfl⟩
  simpa [enrich] using
    matchPercentage_bounds ((occ.required_skills.map (fun s => s.uri)).toFinset)
      skill_uris.toFinset

/-- Witness for C1 on the example database with limit 5. -/
theorem C1_limit_and_percentage_bounds_witness :
    1 ≤ 5 ∧ 5 ≤ 100 ∧ (["skill:py"] : List String) ≠ [] ∧
    ((getRecommendations exDb exEncode exSearch ["skill:py"] [] [] 5).length ≤ 5 ∧
      ∀ r ∈ getRecommendations exDb exEncode exSearch ["skill:py"] [] [] 5,
        0 ≤ r.match_percentage ∧ r.match_percentage ≤ 100) :=
  ⟨by norm_num, by norm_num, by simp,
    C1_limit_and_percentage_bounds exDb exEncode exSearch ["skill:py"] [] [] 5
      (by norm_num) (by norm_num) (by simp)⟩

theorem enrich_partition (u : List String) (fr : List (String × ℚ)) (occ : OccRecord) :
    (enrich u fr occ).matched_skills =
      (enrich u fr occ).required_skills.filter (fun s => decide (s.uri ∈ u)) ∧
    (enrich u fr occ).missing_skills =
      (enrich u fr occ).required_skills.filter (fun s => !decide (s.uri ∈ u)) ∧
    ((enrich u fr occ).matched_skills ++ (enrich u fr occ).missing_skills).Perm
      (enrich u fr occ).required_skills ∧
    (enrich u fr occ).match_percentage =
      (if (enrich u fr occ).required_skills = [] then (0 : ℚ)
       else (((enrich u fr occ).matched_skills.map (fun s => s.uri)).toFinset.card : ℚ) /
            (((enrich u fr occ).required_skills.map (fun s => s.uri)).toFinset.card : ℚ)
            * 100) := by
  have hreq : (enrich u fr occ).required_skills = occ.required_skills := by
    simp [enrich]
  have hmatched : (enrich u fr occ).matched_skills =
      occ.required_skills.filter (fun s => decide (s.uri ∈ u)) := by
    simp only [enrich]
    apply List.filter_congr
    intro s hs
    rw [decide_eq_decide, Finset.mem_inter, List.mem_toFinset, List.mem_toFinset]
    exact ⟨fun h => h.2, fun h => ⟨List.mem_map_of_mem _ hs, h⟩⟩
  have hmissing : (enrich u fr occ).missing_skills =
      occ.required_skills.filter (fun s => !decide (s.uri ∈ u)) := by
    simp only [enrich]
    apply List.filter_congr
    intro s hs
    rw [← decide_not, decide_eq_decide, Finset.mem_sdiff, List.mem_toFinset,
      List.mem_toFinset]
    exact ⟨fun h => h.2, fun h => ⟨List.mem_map_of_mem _ hs, h⟩⟩
  refine ⟨by rw [hmatched, hreq], by rw [hmissing, hreq], ?_, ?_⟩
  · rw [hmatched, hmissing, hreq]
    exact List.filter_append_perm _ _
  · rw [hmatched, hreq]
    have hpctdef : (enrich u fr occ).match_percentage =
        matchPercentage ((occ.required_skills.map (fun s => s.uri)).toFinset)
          u.toFinset := by
      simp [enrich]
    rw [hpctdef]
    have hinter :
        ((occ.required_skills.filter (fun s => decide (s.uri ∈ u))).map
            (fun s => s.uri)).toFinset =
          (occ.required_skills.map (fun s => s.uri)).toFinset ∩ u.toFinset := by
      ext w
      simp only [List.mem_toFinset, List.mem_map, List.mem_filter,
        Finset.mem_inter, decide_eq_true_eq]
      constructor
      · rintro ⟨s, ⟨hs, hu⟩, rfl⟩
        exact ⟨⟨s, hs, rfl⟩, hu⟩
      · rintro ⟨⟨s, hs, rfl⟩, hu⟩
        exact ⟨s, ⟨hs, hu⟩, rfl⟩
    have hempty : ((occ.required_skills.map (fun s => s.uri)).toFinset = ∅) ↔
        occ.required_skills = [] := by
      rw [List.toFinset_eq_empty_iff, List.map_eq_nil_iff]
    rw [hinter]
    unfold matchPercentage
    by_cases hq : occ.required_skills = []
    · rw [if_pos (hempty.mpr hq), if_pos hq]
    · rw [if_neg (fun h => hq (hempty.mp h)), if_neg hq]

/-- Claim C2: for every returned occupation, the matched skills are exactly
the required entries whose uri is among the user's skills, the missing
skills are exactly the complement, their concatenation is a permutation of
the required list (no skill lost or duplicated), and the match percentage
equals |matched uris| / |required uris| × 100, with value 0 when there are
no required skills. -/
theorem C2_skill_gap_partition (db : GraphDB) (encode : String → List ℚ)
    (search : List ℚ → Nat → List (String × ℚ)) (skill_uris ogs schemes : List String)
    (limit : Nat) (r : EnrichedOcc)
    (hr : r ∈ getRecommendations db encode search skill_uris ogs schemes limit) :
    r.matched_skills = r.required_skills.filter (fun s => decide (s.uri ∈ skill_uris)) ∧
    r.missing_skills =
      r.required_skills.filter (fun s => !decide (s.uri ∈ skill_uris)) ∧
    (r.matched_skills ++ r.missing_skills).Perm r.required_skills ∧
    r.match_percentage =
      (if r.required_skills = [] then (0 : ℚ)
       else ((r.matched_skills.map (fun s => s.uri)).toFinset.card : ℚ) /
            ((r.required_skills.map (fun s => s.uri)).toFinset.card : ℚ) * 100) := by
  rcases mem_getRecommendations db encode search skill_uris ogs schemes limit r hr
    with ⟨occ, _, rfl⟩
  exact enrich_partition skill_uris _ occ

theorem occPassesGroupFilter_iff (db : GraphDB) (ogs : List String) (o : Occupation) :
    occPassesGroupFilter db ogs o = true ↔
      DirectGroupMember db ogs o ∨ AncestorGroupMember db ogs o ∨
        CodeGroupMember db ogs o := by
  unfold occPassesGroupFilter DirectGroupMember AncestorGroupMember CodeGroupMember
  simp only [List.any_eq_true, Bool.or_eq_true, Bool.and_eq_true, decide_eq_true_eq]
  constructor
  · rintro ⟨g, hg, hcase⟩
    rcases hcase with (hdir | hanc) | hcode
    · exact Or.inl ⟨g, hg, hdir⟩
    · exact Or.inr (Or.inl ⟨g, hg, hanc⟩)
    · cases hc : g.code with
      | none => rw [hc] at hcode; exact absurd hcode (by simp)
      | some c =>
        rw [hc] at hcode
        simp only [List.any_eq_true, List.mem_map] at hcode
        rcases hcode with ⟨fc, ⟨fu, hfu, rfl⟩, hpre⟩
        exact Or.inr (Or.inr ⟨g, hg, c, hc, fu, hfu, hpre⟩)
  · rintro (⟨g, hg, h⟩ | ⟨g, hg, h⟩ | ⟨g, hg, c, hc, fu, hfu, hpre⟩)
    · exact ⟨g, hg, Or.inl (Or.inl h)⟩
    · exact ⟨g, hg, Or.inl (Or.inr h)⟩
    · refine ⟨g, hg, Or.inr ?_⟩
      rw [hc]
      simp only [List.any_eq_true, List.mem_map]
      exact ⟨groupCodeOfUri fu, ⟨fu, hfu, rfl⟩, hpre⟩

/-- Claim C3: when group filters are supplied, every returned occupation
satisfies at least one of the three membership tests — direct membership in
a requested group, membership in a group with a requested ancestor within
5 broader hops, or membership in a group whose code starts with a requested
group's code; a candidate matching none of the three never appears. -/
theorem C3_group_filter_correct (db : GraphDB) (encode : String → List ℚ)
    (search : List ℚ → Nat → List (String × ℚ)) (skill_uris ogs schemes : List String)
    (limit : Nat) (r : EnrichedOcc) (hogs : ogs ≠ [])
    (hr : r ∈ getRecommendations db encode search skill_uris ogs schemes limit) :
    ∃ o ∈ db.occupations, o.uri = r.uri ∧
      (DirectGroupMember db ogs o ∨ AncestorGroupMember db ogs o ∨
        CodeGroupMember db ogs o) := by
  rcases mem_getRecommendations db encode search skill_uris ogs schemes limit r hr
    with ⟨occ, hocc, rfl⟩
  unfold fetchOccupationsWithSkills at hocc
  simp only [] at hocc
  rcases List.mem_map.mp hocc with ⟨o, ho, rfl⟩
  rw [mem_stSort] at ho
  have hne : ¬ (ogs.isEmpty = true) := by simpa using hogs
  rw [if_neg hne] at ho
  have ho2 : o ∈ (db.occupations.filter (fun o' =>
      decide (o'.uri ∈ (faissResultsOf db encode search skill_uris ogs schemes
        limit).map (fun p => p.1)))).filter (occPassesGroupFilter db ogs) := by
    by_cases hs : schemes.isEmpty = true
    · rw [if_pos hs] at ho
      exact ho
    · rw [if_neg hs] at ho
      exact (List.mem_filter.mp ho).1
  rcases List.mem_filter.mp ho2 with ⟨ho3, hpass⟩
  rcases List.mem_filter.mp ho3 with ⟨ho4, _⟩
  refine ⟨o, ho4, ?_, (occPassesGroupFilter_iff db ogs o).mp hpass⟩
  simp [enrich]

theorem exRunNoFilter_eq :
    getRecommendations exDb exEncode exSearch ["skill:py"] [] [] 5 =
      [exResultB, exResultA] := by
  norm_num +decide [getRecommendations, faissResultsOf, repoQueryText,
    getSkillLabels, fetchOccupationsWithSkills, exDb, exEncode, exSearch, stSort,
    occLabelPrec, scoreDescPrec,
    stInsert, precAsc, precDesc, memberGroups, enrich, lookupScore,
    matchPercentage, dedupKeepFirst, dedupKeepFirstAux, groupDisplay,
    schemeDisplay, occPassesGroupFilter, occPassesSchemeFilter, reachBroader,
    broaderStep, groupCodeOfUri, exResultA, exResultB, exSkillPy, exSkillSql,
    exSkillPyOpt]

theorem exRunGroupFilter_eq :
    getRecommendations exDb exEncode exSearch ["skill:py"] ["grp:parent"] [] 5 =
      [exResultB] := by
  norm_num +decide [getRecommendations, faissResultsOf, repoQueryText,
    getSkillLabels, fetchOccupationsWithSkills, exDb, exEncode, exSearch, stSort,
    occLabelPrec, scoreDescPrec,
    stInsert, precAsc, precDesc, memberGroups, enrich, lookupScore,
    matchPercentage, dedupKeepFirst, dedupKeepFirstAux, groupDisplay,
    schemeDisplay, occPassesGroupFilter, occPassesSchemeFilter, reachBroader,
    broaderStep, groupCodeOfUri, exResultB, exSkillPy, exSkillSql]

/-- Witness for C2: the "occ:B" record of the example run satisfies the
partition and percentage properties. -/
theorem C2_skill_gap_partition_witness :
    exResultB ∈ getRecommendations exDb exEncode exSearch ["skill:py"] [] [] 5 ∧
    (exResultB.matched_skills =
      exResultB.required_skills.filter
        (fun s => decide (s.uri ∈ (["skill:py"] : List String))) ∧
    exResultB.missing_skills =
      exResultB.required_skills.filter
        (fun s => !decide (s.uri ∈ (["skill:py"] : List String))) ∧
    (exResultB.matched_skills ++ exResultB.missing_skills).Perm
      exResultB.required_skills ∧
    exResultB.match_percentage =
      (if exResultB.required_skills = [] then (0 : ℚ)
       else ((exResultB.matched_skills.map (fun s => s.uri)).toFinset.card : ℚ) /
            ((exResultB.required_skills.map (fun s => s.uri)).toFinset.card : ℚ) *
            100)) :=
  ⟨by rw [exRunNoFilter_eq]; exact List.mem_cons_self _ _,
   C2_skill_gap_partition exDb exEncode exSearch ["skill:py"] [] [] 5 exResultB
     (by rw [exRunNoFilter_eq]; exact List.mem_cons_self _ _)⟩

/-- Witness for C3: occupation "occ:B" is returned under filter group
"grp:parent" and passes one of the three membership tests (here: the
ancestor test, via the broader edge from "grp:child"). -/
theorem C3_group_filter_correct_witness :
    (["grp:parent"] : List String) ≠ [] ∧
    exResultB ∈
      getRecommendations exDb exEncode exSearch ["skill:py"] ["grp:parent"] [] 5 ∧
    ∃ o ∈ exDb.occupations, o.uri = exResultB.uri ∧
      (DirectGroupMember exDb ["grp:parent"] o ∨
        AncestorGroupMember exDb ["grp:parent"] o ∨
        CodeGroupMember exDb ["grp:parent"] o) :=
  ⟨by decide, by rw [exRunGroupFilter_eq]; exact List.mem_cons_self _ _,
    C3_group_filter_correct exDb exEncode exSearch ["skill:py"] ["grp:parent"] []
      5 exResultB (by decide)
      (by rw [exRunGroupFilter_eq]; exact List.mem_cons_self _ _)⟩

theorem occLabelPrec_hA1 : ∀ a b, occLabelPrec a b = true → occLabelPrec b a = false := by
  unfold occLabelPrec
  exact precAsc_hA1 _

theorem occLabelPrec_hA2 : ∀ x y z, occLabelPrec x y = true → occLabelPrec z y = false →
    occLabelPrec z x = false := by
  unfold occLabelPrec
  exact precAsc_hA2 _

theorem occLabelPrec_false {a b : Occupation} (h : occLabelPrec b a = false) :
    a.label ≤ b.label := by
  simp only [occLabelPrec, precAsc, decide_eq_false_iff_not, not_lt] at h
  exact h

theorem pairwise_sort_result (l : List EnrichedOcc)
    (hlab : l.Pairwise (fun a b => a.label ≤ b.label)) :
    (stSort scoreDescPrec l).Pairwise
      (fun a b => b.similarity_score ≤ a.similarity_score ∧
        (a.similarity_score = b.similarity_score → a.label ≤ b.label)) := by
  unfold scoreDescPrec
  apply List.Pairwise.and
  · refine List.Pairwise.imp ?_
      (stSort_sorted (precDesc (fun e : EnrichedOcc => e.similarity_score))
        (precDesc_hA1 _) (precDesc_hA2 _) l)
    intro a b hab
    exact not_lt.mp (of_decide_eq_false hab)
  · apply stSort_stable _ _ (precDesc_hA1 _) (precDesc_hA2 _) (precDesc_hA3 _)
    · intro a b hab heq
      exact absurd heq (ne_of_gt (of_decide_eq_true hab))
    · exact List.Pairwise.imp (fun hab => fun _ => hab) hlab

theorem fetch_labels_sorted (db : GraphDB) (uris user ogs schemes : List String) :
    (fetchOccupationsWithSkills db uris user ogs schemes).Pairwise
      (fun a b => a.label ≤ b.label) := by
  unfold fetchOccupationsWithSkills
  simp only []
  rw [List.pairwise_map]
  refine List.Pairwise.imp ?_
    (stSort_sorted occLabelPrec occLabelPrec_hA1 occLabelPrec_hA2 _)
  intro a b hab
  exact occLabelPrec_false hab

/-- Claim C4 (amended): the returned list is sorted in descending order of
similarity score, and any two results with equal scores appear in ascending
order of the occupation's preferred label — the order produced by the graph
fetch (`ORDER BY o.preferredLabel`) and preserved by the stable sort — not
in the original vector-index candidate order (see the counterexample). -/
theorem C4_sorted_desc_ties_by_label (db : GraphDB) (encode : String → List ℚ)
    (search : List ℚ → Nat → List (String × ℚ)) (skill_uris ogs schemes : List String)
    (limit : Nat) :
    (getRecommendations db encode search skill_uris ogs schemes limit).Pairwise
      (fun a b => b.similarity_score ≤ a.similarity_score ∧
        (a.similarity_score = b.similarity_score → a.label ≤ b.label)) := by
  unfold getRecommendations
  by_cases he : skill_uris.isEmpty = true
  · rw [if_pos he]
    exact List.Pairwise.nil
  · rw [if_neg he]
    simp only []
    by_cases hf :
        (faissResultsOf db encode search skill_uris ogs schemes limit).isEmpty = true
    · rw [if_pos hf]
      exact List.Pairwise.nil
    · rw [if_neg hf]
      refine List.Pairwise.sublist (List.take_sublist _ _) ?_
      apply pairwise_sort_result
      rw [List.pairwise_map]
      refine List.Pairwise.imp ?_
        (fetch_labels_sorted db _ skill_uris ogs schemes)
      intro a b hab
      simpa [enrich] using hab

/-- Counterexample for C4 as stated: with two equal-score candidates
returned by the vector index in the order ["occ:B", "occ:A"], the repo
returns them as ["occ:A", "occ:B"]: the tie is ordered by occupation label
(the graph fetch's ORDER BY), not by the original candidate order. -/
theorem C4_counterexample :
    (getRecommendations exDb exEncode exSearchTie ["skill:py"] [] [] 5).map
        (fun r => (r.uri, r.similarity_score)) =
      [("occ:A", 1/2), ("occ:B", 1/2)] ∧
    (faissResultsOf exDb exEncode exSearchTie ["skill:py"] [] [] 5).map
        (fun p => p.1) = ["occ:B", "occ:A"] ∧
    (["occ:A", "occ:B"] : List String) ≠ ["occ:B", "occ:A"] := by
  refine ⟨?_, rfl, by decide⟩
  norm_num +decide [getRecommendations, faissResultsOf, repoQueryText,
    getSkillLabels, fetchOccupationsWithSkills, exDb, exEncode, exSearchTie,
    occLabelPrec, scoreDescPrec, stSort, stInsert, precAsc, precDesc, memberGroups, enrich, lookupScore,
    matchPercentage, dedupKeepFirst, dedupKeepFirstAux, groupDisplay,
    schemeDisplay, occPassesGroupFilter, occPassesSchemeFilter, reachBroader,
    broaderStep, groupCodeOfUri, exSkillPy, exSkillSql, exSkillPyOpt]
